import Mathlib

/-!
Verification development for the streaming ingestion and request-resilience
core of the AI compliance chat client.  The definitions below are shallow
embeddings of the TypeScript source: the group-streaming store (brace-counted
concatenated-JSON framing, quasi-JSON normalisation, session state machine),
the agent API hook (newline-delimited framing, request generations), and the
retry executor.  Text is modelled as `List Char`; JavaScript strings appearing
as record fields are modelled as `String`.
-/

/-- Left brace character, written via its code point. -/
def lbrace : Char := Char.ofNat 123

/-- Right brace character, written via its code point. -/
def rbrace : Char := Char.ofNat 125

/-- Single quote character. -/
def squote : Char := Char.ofNat 39

/-- Double quote character. -/
def dquote : Char := Char.ofNat 34

/-- Backslash character. -/
def bslash : Char := Char.ofNat 92

/-- Whitespace as recognised by string trimming. -/
def isWsChar (c : Char) : Bool := c.isWhitespace

/-- JavaScript `String.prototype.trim` on a character list. -/
def jsTrim (s : List Char) : List Char :=
  ((s.dropWhile isWsChar).reverse.dropWhile isWsChar).reverse

/-- `leadsWith pat s` holds when `pat` is an initial segment of `s`
(the `startsWith` test of the source). -/
def leadsWith : List Char → List Char → Bool
  | [], _ => true
  | _ :: _, [] => false
  | p :: ps, c :: cs => p = c && leadsWith ps cs

/-- Fuelled worker for `replaceAll`; every step consumes at least one
character, so fuel equal to the input length never runs out. -/
def replaceAllF (pat repl : List Char) : Nat → List Char → List Char
  | _, [] => []
  | 0, s => s
  | fuel + 1, c :: rest =>
    if leadsWith pat (c :: rest) && !pat.isEmpty then
      repl ++ replaceAllF pat repl fuel ((c :: rest).drop pat.length)
    else
      c :: replaceAllF pat repl fuel rest

/-- Global, left-to-right, non-overlapping replacement of the pattern by the
replacement, as performed by `String.prototype.replace` with a global regex
on a fixed pattern. -/
def replaceAll (pat repl : List Char) (s : List Char) : List Char :=
  replaceAllF pat repl s.length s

/-- One step of the agentic workflow stream: the six required string fields
of `LogisticsStreamStep`. -/
structure LogisticsStreamStep where
  order_id : String
  sender : String
  receiver : String
  message : String
  timestamp : String
  state : String
deriving DecidableEq, Repr

/-- The state part of the group streaming store. -/
structure LogisticsStreamingState where
  events : List LogisticsStreamStep
  finalResponse : Option String
  isStreaming : Bool
  isComplete : Bool
  error : Option String
  currentOrderId : Option String
  executionKey : Option String
deriving DecidableEq, Repr

/-- The initial store state (`initialState` in the source). -/
def initialState : LogisticsStreamingState :=
  { events := []
    finalResponse := none
    isStreaming := false
    isComplete := false
    error := none
    currentOrderId := none
    executionKey := none }

/-- `addEvent`: appends the event, records its order id, and flips the
completion flags exactly when the event state is the terminal marker. -/
def addEvent (s : LogisticsStreamingState) (e : LogisticsStreamStep) :
    LogisticsStreamingState :=
  { s with
    events := s.events ++ [e]
    currentOrderId := some e.order_id
    isComplete := if e.state = "DELIVERED" then true else s.isComplete
    isStreaming := if e.state = "DELIVERED" then false else s.isStreaming }

/-- `setFinalResponse`: stores the final response and marks the session
complete. -/
def setFinalResponse (s : LogisticsStreamingState) (response : String) :
    LogisticsStreamingState :=
  { s with finalResponse := some response, isComplete := true, isStreaming := false }

/-- `setError`: stores the error and marks the session complete. -/
def setError (s : LogisticsStreamingState) (err : String) :
    LogisticsStreamingState :=
  { s with error := some err, isComplete := true, isStreaming := false }

/-- `setStreaming`. -/
def setStreaming (s : LogisticsStreamingState) (b : Bool) :
    LogisticsStreamingState :=
  { s with isStreaming := b }

/-- `setComplete`: marks completion and stops streaming. -/
def setComplete (s : LogisticsStreamingState) (b : Bool) :
    LogisticsStreamingState :=
  { s with isComplete := b, isStreaming := false }

/-- `reset`: replaces the whole state part by `initialState`. -/
def reset (_s : LogisticsStreamingState) : LogisticsStreamingState :=
  initialState

/-- The store state right after `startStreaming` has run `reset()` and
`setStreaming(true)`. -/
def streamingStart : LogisticsStreamingState :=
  setStreaming (reset initialState) true

section Retry

variable {α : Type}

/-- Modelled from the spec: the retry loop of `withRetry`
(`utils/retryUtils` is not part of the corpus; only its call sites are).
`attemptIdx` is the zero-based index of the attempt about to run and
`retriesLeft` counts the attempts still allowed after it.  On failure with
retries left it records an `onRetry(attempt, error, delay)` observation with
`delay = base * 2 ^ attemptIdx` and retries; otherwise it propagates the
failure unchanged. -/
def withRetryGo (op : Nat → Except String α) (base : Nat) :
    Nat → Nat → Except String α × List (Nat × String × Nat)
  | attemptIdx, 0 =>
    (match op attemptIdx with
     | .ok v => (.ok v, [])
     | .error e => (.error e, []))
  | attemptIdx, r + 1 =>
    match op attemptIdx with
    | .ok v => (.ok v, [])
    | .error e =>
      let delay := base * 2 ^ attemptIdx
      let res := withRetryGo op base (attemptIdx + 1) r
      (res.1, (attemptIdx + 1, e, delay) :: res.2)

/-- Modelled from the spec: `withRetry` with `maxAttempts` total attempts.
The result pairs the final outcome with the ordered list of
`(attempt, error, delay)` observer invocations. -/
def withRetry (op : Nat → Except String α) (maxAttempts base : Nat) :
    Except String α × List (Nat × String × Nat) :=
  withRetryGo op base 0 (maxAttempts - 1)

end Retry

/-- The scan of the brace-counted extractor: walk the characters keeping a
depth counter (`{` increments, `}` decrements); report the index of the first
`}` at which the counter returns to zero, or `none`.  `idx` is the index of
the head of the remaining list. -/
def scanEnd : List Char → Int → Nat → Option Nat
  | [], _, _ => none
  | c :: rest, count, idx =>
    if c = lbrace then scanEnd rest (count + 1) (idx + 1)
    else if c = rbrace then
      if count - 1 = 0 then some idx else scanEnd rest (count - 1) (idx + 1)
    else scanEnd rest count (idx + 1)

theorem scanEnd_bounds (s : List Char) :
    ∀ count idx j, scanEnd s count idx = some j → idx ≤ j ∧ j < idx + s.length := by
  induction s with
  | nil => intro count idx j h; simp [scanEnd] at h
  | cons c rest ih =>
    intro count idx j h
    simp only [scanEnd] at h
    by_cases hc : c = lbrace
    · simp only [hc, if_pos rfl] at h
      have := ih (count + 1) (idx + 1) j h
      simp only [List.length_cons]; omega
    · simp only [if_neg hc] at h
      by_cases hr : c = rbrace
      · simp only [hr, if_pos rfl] at h
        by_cases hz : count - 1 = 0
        · rw [if_pos hz] at h
          injection h with h
          subst h; simp only [List.length_cons]; omega
        · simp only [if_neg hz] at h
          have := ih (count - 1) (idx + 1) j h
          simp only [List.length_cons]; omega
      · simp only [if_neg hr] at h
        have := ih count (idx + 1) j h
        simp only [List.length_cons]; omega

theorem scanEnd_append_some (s : List Char) :
    ∀ (t : List Char) count idx j, scanEnd s count idx = some j →
      scanEnd (s ++ t) count idx = some j := by
  induction s with
  | nil => intro t count idx j h; simp [scanEnd] at h
  | cons c rest ih =>
    intro t count idx j h
    simp only [scanEnd, List.cons_append] at h ⊢
    by_cases hc : c = lbrace
    · simp only [hc, if_pos rfl] at h ⊢
      exact ih t (count + 1) (idx + 1) j h
    · simp only [if_neg hc] at h ⊢
      by_cases hr : c = rbrace
      · simp only [hr, if_pos rfl] at h ⊢
        by_cases hz : count - 1 = 0
        · simpa [if_pos hz] using h
        · simp only [if_neg hz] at h ⊢
          exact ih t (count - 1) (idx + 1) j h
      · simp only [if_neg hr] at h ⊢
        exact ih t count (idx + 1) j h

/-- One run of the inner `while (remaining.length > 0)` loop of
`startStreaming`: repeatedly scan for a complete brace-balanced span; emit
it and continue on the remainder; stop when no complete span is found,
retaining the remainder as the new buffer.  Returns the ordered emitted
spans and the retained buffer. -/
def extractStep (s : List Char) : List (List Char) × List Char :=
  match h : scanEnd s 0 0 with
  | none => ([], s)
  | some j =>
    let p := extractStep (s.drop (j + 1))
    (s.take (j + 1) :: p.1, p.2)
termination_by s.length
decreasing_by
  have hb := scanEnd_bounds s 0 0 j h
  simp only [List.length_drop]
  omega

theorem extractStep_none {s : List Char} (h : scanEnd s 0 0 = none) :
    extractStep s = ([], s) := by
  rw [extractStep]
  split <;> simp_all

theorem extractStep_some {s : List Char} {j : Nat} (h : scanEnd s 0 0 = some j) :
    extractStep s =
      (s.take (j + 1) :: (extractStep (s.drop (j + 1))).1,
       (extractStep (s.drop (j + 1))).2) := by
  rw [extractStep]
  split <;> simp_all

/-- The retained buffer of an extraction never contains a complete span. -/
theorem extractStep_residual (s : List Char) : scanEnd (extractStep s).2 0 0 = none := by
  generalize hn : s.length = n
  induction n using Nat.strong_induction_on generalizing s with
  | _ n ih =>
    cases h : scanEnd s 0 0 with
    | none => rw [extractStep_none h]; exact h
    | some j =>
      rw [extractStep_some h]
      have hb := scanEnd_bounds s 0 0 j h
      have hlt : (s.drop (j + 1)).length < n := by
        simp only [List.length_drop]; omega
      exact ih _ hlt _ rfl

/-- Splitting lemma: extracting from `a ++ b` emits first what `a` alone
emits, then what the retained buffer of `a` followed by `b` emits. -/
theorem extractStep_append (a b : List Char) :
    extractStep (a ++ b) =
      ((extractStep a).1 ++ (extractStep ((extractStep a).2 ++ b)).1,
       (extractStep ((extractStep a).2 ++ b)).2) := by
  generalize hn : a.length = n
  induction n using Nat.strong_induction_on generalizing a b with
  | _ n ih =>
    cases h : scanEnd a 0 0 with
    | none =>
      rw [extractStep_none h]
      simp
    | some j =>
      have hb := scanEnd_bounds a 0 0 j h
      have hab : scanEnd (a ++ b) 0 0 = some j := scanEnd_append_some a b 0 0 j h
      have hj1 : j + 1 ≤ a.length := by omega
      rw [extractStep_some hab, extractStep_some h]
      have htake : (a ++ b).take (j + 1) = a.take (j + 1) := by
        rw [List.take_append_eq_append_take]
        have : j + 1 - a.length = 0 := by omega
        simp [this]
      have hdrop : (a ++ b).drop (j + 1) = a.drop (j + 1) ++ b := by
        rw [List.drop_append_eq_append_drop]
        have : j + 1 - a.length = 0 := by omega
        simp [this]
      have hlt : (a.drop (j + 1)).length < n := by
        simp only [List.length_drop]; omega
      rw [htake, hdrop, ih _ hlt _ b rfl]
      simp

/-- The pure extraction step of §4.2: `(oldBuffer, chunk)` to
`(emittedValues, newBuffer)`. -/
def extract (buffer chunk : List Char) : List (List Char) × List Char :=
  extractStep (buffer ++ chunk)

/-- Feeding a sequence of chunks one at a time through `extract`, threading
the retained buffer, and concatenating the emitted values in order. -/
def feedChunks (buffer : List Char) : List (List Char) → List (List Char) × List Char
  | [] => ([], buffer)
  | c :: cs =>
    let p := extract buffer c
    let q := feedChunks p.2 cs
    (p.1 ++ q.1, q.2)

theorem feedChunks_eq_extractStep (chunks : List (List Char)) :
    ∀ r : List Char, scanEnd r 0 0 = none →
      feedChunks r chunks = extractStep (r ++ chunks.flatten) := by
  induction chunks with
  | nil =>
    intro r hr
    simp [feedChunks, extractStep_none hr]
  | cons c cs ih =>
    intro r hr
    have hres : scanEnd (extract r c).2 0 0 = none := extractStep_residual (r ++ c)
    simp only [feedChunks, ih _ hres]
    have : r ++ (c :: cs).flatten = (r ++ c) ++ cs.flatten := by simp [List.flatten]
    rw [this, extractStep_append (r ++ c) cs.flatten]
    rfl

/-- JSON values as produced by `JSON.parse`.  Numbers keep their lexeme. -/
inductive Json where
  | str : String → Json
  | num : String → Json
  | bool : Bool → Json
  | null : Json
  | obj : List (String × Json) → Json
  | arr : List Json → Json

/-- JSON token whitespace. -/
def isJsonWs (c : Char) : Bool := c = ' ' || c = '\t' || c = '\n' || c = '\r'

/-- Skip leading JSON whitespace. -/
def skipWs : List Char → List Char
  | [] => []
  | c :: rest => if isJsonWs c then skipWs rest else c :: rest

/-- Decoding of a two-character escape sequence inside a JSON string
(the `\uXXXX` form is not modelled; inputs in this development avoid it). -/
def unescapeChar (c : Char) : Option Char :=
  if c = dquote then some dquote
  else if c = bslash then some bslash
  else if c = '/' then some '/'
  else if c = 'n' then some '\n'
  else if c = 't' then some '\t'
  else if c = 'r' then some '\r'
  else if c = 'b' then some (Char.ofNat 8)
  else if c = 'f' then some (Char.ofNat 12)
  else none

/-- Parse the body of a JSON string after its opening quote; returns the
decoded characters and the input after the closing quote. -/
def parseStringBody : List Char → Option (List Char × List Char)
  | [] => none
  | c :: rest =>
    if c = dquote then some ([], rest)
    else if c = bslash then
      match rest with
      | [] => none
      | e :: rest2 =>
        match unescapeChar e with
        | none => none
        | some u =>
          match parseStringBody rest2 with
          | none => none
          | some p => some (u :: p.1, p.2)
    else
      match parseStringBody rest with
      | none => none
      | some p => some (c :: p.1, p.2)

/-- Longest digit run at the head of the input. -/
def spanDigits : List Char → List Char × List Char
  | [] => ([], [])
  | c :: rest =>
    if c.isDigit then
      let p := spanDigits rest
      (c :: p.1, p.2)
    else ([], c :: rest)

/-- Lexeme of a JSON number at the head of the input. -/
def parseNumberLexeme (s : List Char) : Option (List Char × List Char) :=
  let sign : List Char × List Char :=
    match s with
    | c :: rest => if c = '-' then ([c], rest) else ([], s)
    | [] => ([], [])
  match spanDigits sign.2 with
  | ([], _) => none
  | (ds, s2) =>
    let frac : List Char × List Char :=
      match s2 with
      | c :: rest =>
        if c = '.' then
          match spanDigits rest with
          | ([], _) => ([], s2)
          | (fs, r) => (c :: fs, r)
        else ([], s2)
      | [] => ([], [])
    let ex : List Char × List Char :=
      match frac.2 with
      | c :: rest =>
        if c = 'e' ∨ c = 'E' then
          match rest with
          | c2 :: rest2 =>
            if c2 = '+' ∨ c2 = '-' then
              match spanDigits rest2 with
              | ([], _) => ([], frac.2)
              | (es, r) => (c :: c2 :: es, r)
            else
              match spanDigits rest with
              | ([], _) => ([], frac.2)
              | (es, r) => (c :: es, r)
          | [] => ([], frac.2)
        else ([], frac.2)
      | [] => ([], [])
    some (sign.1 ++ ds ++ frac.1 ++ ex.1, ex.2)

/-- The literal token `true`. -/
def trueTok : List Char := ("true").data

/-- The literal token `false`. -/
def falseTok : List Char := ("false").data

/-- The literal token `null`. -/
def nullTok : List Char := ("null").data

mutual

/-- Recursive-descent JSON value parser, fuelled to bound nesting. -/
def parseValue : Nat → List Char → Option (Json × List Char)
  | 0, _ => none
  | fuel + 1, s =>
    match skipWs s with
    | [] => none
    | c :: rest =>
      if c = dquote then
        match parseStringBody rest with
        | none => none
        | some p => some (Json.str (String.mk p.1), p.2)
      else if c = lbrace then
        match skipWs rest with
        | [] => none
        | c2 :: r2 =>
          if c2 = rbrace then some (Json.obj [], r2)
          else
            match parseMembers fuel (c2 :: r2) [] with
            | none => none
            | some p => some (Json.obj p.1, p.2)
      else if c = '[' then
        match skipWs rest with
        | [] => none
        | c2 :: r2 =>
          if c2 = ']' then some (Json.arr [], r2)
          else
            match parseElems fuel (c2 :: r2) [] with
            | none => none
            | some p => some (Json.arr p.1, p.2)
      else if leadsWith trueTok (c :: rest) then some (Json.bool true, (c :: rest).drop 4)
      else if leadsWith falseTok (c :: rest) then some (Json.bool false, (c :: rest).drop 5)
      else if leadsWith nullTok (c :: rest) then some (Json.null, (c :: rest).drop 4)
      else
        match parseNumberLexeme (c :: rest) with
        | none => none
        | some p => some (Json.num (String.mk p.1), p.2)

/-- Members of a JSON object after the opening brace (whitespace already
skipped, object known to be non-empty). -/
def parseMembers : Nat → List Char → List (String × Json) →
    Option (List (String × Json) × List Char)
  | 0, _, _ => none
  | fuel + 1, s, acc =>
    match s with
    | [] => none
    | c :: rest =>
      if c = dquote then
        match parseStringBody rest with
        | none => none
        | some pk =>
          match skipWs pk.2 with
          | [] => none
          | c2 :: r2 =>
            if c2 = ':' then
              match parseValue fuel (skipWs r2) with
              | none => none
              | some pv =>
                match skipWs pv.2 with
                | [] => none
                | c3 :: r3 =>
                  if c3 = ',' then parseMembers fuel (skipWs r3) (acc ++ [(String.mk pk.1, pv.1)])
                  else if c3 = rbrace then some (acc ++ [(String.mk pk.1, pv.1)], r3)
                  else none
            else none
      else none

/-- Elements of a JSON array after the opening bracket (whitespace already
skipped, array known to be non-empty). -/
def parseElems : Nat → List Char → List Json → Option (List Json × List Char)
  | 0, _, _ => none
  | fuel + 1, s, acc =>
    match parseValue fuel s with
    | none => none
    | some pv =>
      match skipWs pv.2 with
      | [] => none
      | c :: r =>
        if c = ',' then parseElems fuel (skipWs r) (acc ++ [pv.1])
        else if c = ']' then some (acc ++ [pv.1], r)
        else none

end

/-- Strict parse of a full JSON document (`JSON.parse`): one value followed
by nothing but whitespace. -/
def parseJson (s : List Char) : Option Json :=
  match parseValue (s.length + 1) s with
  | none => none
  | some p => if (skipWs p.2).isEmpty then some p.1 else none

/-- Key string for the streamed response field. -/
def responseKey : String := "response"

/-- Key string for the node-highlight field. -/
def nodeKey : String := "node"

/-- Property lookup on a parsed JSON value with JavaScript semantics:
only objects carry string-keyed fields, and a duplicated key keeps its last
occurrence. -/
def getField (j : Json) (k : String) : Option Json :=
  match j with
  | Json.obj kvs =>
    match kvs.reverse.find? (fun p => p.1 == k) with
    | some p => some p.2
    | none => none
  | _ => none

/-- JavaScript truthiness of a parsed JSON value. -/
def jsTruthy : Json → Bool
  | Json.str s => !s.data.isEmpty
  | Json.num l => l.data.any (fun c => c.isDigit && c ≠ '0')
  | Json.bool b => b
  | Json.null => false
  | Json.obj _ => true
  | Json.arr _ => true

/-- String coercion of a parsed JSON value as JavaScript applies it when
concatenating; only string values are exercised by the verified
properties. -/
def jsDisplay : Json → String
  | Json.str s => s
  | Json.num l => l
  | Json.bool b => if b then "true" else "false"
  | Json.null => ""
  | Json.obj _ => "[object Object]"
  | Json.arr _ => ""

/-- The required non-empty string fields of a logistics stream step. -/
def requiredStringFields : List String :=
  ["order_id", "sender", "receiver", "message", "timestamp", "state"]

/-- One required field is a string whose trimmed value is non-empty. -/
def fieldOkay (j : Json) (f : String) : Bool :=
  match getField j f with
  | some (Json.str s) => !(jsTrim s.data).isEmpty
  | _ => false

/-- `isValidLogisticsStreamStep`: the candidate is an object-like value and
every required field is a non-blank string. -/
def isValidLogisticsStreamStep (j : Json) : Bool :=
  (match j with
   | Json.obj _ => true
   | Json.arr _ => true
   | _ => false) &&
  requiredStringFields.all (fieldOkay j)

/-- Required field as a string (used only on validated candidates). -/
def getStrField (j : Json) (f : String) : String :=
  match getField j f with
  | some (Json.str s) => s
  | _ => ""

/-- Structured event built from a validated candidate object. -/
def mkStep (j : Json) : LogisticsStreamStep :=
  { order_id := getStrField j ("order_id")
    sender := getStrField j ("sender")
    receiver := getStrField j ("receiver")
    message := getStrField j ("message")
    timestamp := getStrField j ("timestamp")
    state := getStrField j ("state") }

/-- The Python literal token for true. -/
def pyTrueTok : List Char := ("True").data

/-- The Python literal token for false. -/
def pyFalseTok : List Char := ("False").data

/-- The Python literal token for null. -/
def pyNoneTok : List Char := ("None").data

/-- The quasi-JSON normalisation chain of `startStreaming`: single quotes to
double quotes, then `True`/`False`/`None` to their strict-JSON spellings. -/
def pyToJson (s : List Char) : List Char :=
  replaceAll pyNoneTok nullTok
    (replaceAll pyFalseTok falseTok
      (replaceAll pyTrueTok trueTok
        (replaceAll [squote] [dquote] s)))

/-- Normalise a quasi-JSON response string, strictly parse it, and validate
it; `none` is a rejected candidate (parse failure or missing/blank field). -/
def parseDictResponse (r : String) : Option LogisticsStreamStep :=
  match parseJson (pyToJson r.data) with
  | none => none
  | some j => if isValidLogisticsStreamStep j then some (mkStep j) else none

/-- The sentinel test of `startStreaming`: the response text begins with
a brace followed by a single or double quote. -/
def startsWithPy (r : String) : Bool :=
  leadsWith [lbrace, squote] r.data || leadsWith [lbrace, dquote] r.data

/-- Outcome of processing one extracted frame in `startStreaming`. -/
inductive FrameAction where
  | nop : FrameAction
  | addEv : LogisticsStreamStep → FrameAction
  | final : String → FrameAction
deriving DecidableEq, Repr

/-- What `startStreaming` does with one extracted frame: parse it; when it
carries a truthy string `response`, either normalise it into a domain event
(sentinel shapes) or treat it as the final response; every failure is
logged and dropped. -/
def handleFrame (frame : List Char) : FrameAction :=
  match parseJson frame with
  | none => FrameAction.nop
  | some j =>
    match getField j responseKey with
    | some (Json.str r) =>
      if !r.data.isEmpty then
        if startsWithPy r then
          match parseDictResponse r with
          | some e => FrameAction.addEv e
          | none => FrameAction.nop
        else FrameAction.final r
      else FrameAction.nop
    | _ => FrameAction.nop

/-- Run the extracted frames of one chunk against the store.  The boolean
reports an early `return` after `setFinalResponse`; frames after it are not
processed. -/
def runFrames (s : LogisticsStreamingState) : List (List Char) →
    LogisticsStreamingState × Bool
  | [] => (s, false)
  | f :: rest =>
    match handleFrame f with
    | FrameAction.nop => runFrames s rest
    | FrameAction.addEv e => runFrames (addEvent s e) rest
    | FrameAction.final r => (setFinalResponse s r, true)

/-- The read loop of `startStreaming` over a list of decoded chunks:
append the chunk to the buffer, extract complete frames, process them, and
either stop on a final response or continue; a stream that ends without a
final response is marked complete. -/
def runStream (s : LogisticsStreamingState) (buffer : List Char) :
    List (List Char) → LogisticsStreamingState
  | [] => setComplete s true
  | chunk :: rest =>
    let p := extractStep (buffer ++ chunk)
    let q := runFrames s p.1
    if q.2 then q.1 else runStream q.1 p.2 rest

/-- Chat message roles. Modelled from the spec: the `Role` constants module
is not part of the corpus; only the two members used by the hook. -/
inductive Role where
  | user : Role
  | assistant : Role
deriving DecidableEq, Repr

/-- A chat message as held in the message list. -/
structure Message where
  role : Role
  content : String
  id : String
  animate : Bool
deriving DecidableEq, Repr

/-- Identifier of the transient loading placeholder message. -/
def loadingPlaceholderId : String := "loading-placeholder"

/-- The mutable state of the `useAgentAPI` hook that the claims concern:
the request generation counter, the loading flag, and the message list. -/
structure AgentApiState where
  requestId : Nat
  loading : Bool
  messages : List Message
deriving DecidableEq, Repr

/-- Callback invocations observable by the caller of the hook. -/
inductive CbEvent where
  | onSuccess : String → CbEvent
  | onError : String → CbEvent
  | onNodeHighlight : String → CbEvent
deriving DecidableEq, Repr

/-- Replace the first message carrying the active assistant id by a copy
with the chunk appended and animation off. -/
def appendToExisting (activeId : String) (chunkStr : String) :
    List Message → Option (List Message)
  | [] => none
  | m :: rest =>
    if m.id = activeId then
      some ({ m with content := m.content ++ chunkStr, animate := false } :: rest)
    else
      match appendToExisting activeId chunkStr rest with
      | none => none
      | some ms => some (m :: ms)

/-- The `setMessages` closure run for a content-bearing chunk: drop the
loading placeholder, then either append to the existing active assistant
message or create it. -/
def applyChunkToMessages (activeId : String) (chunkStr : String)
    (prev : List Message) : List Message :=
  let filtered := prev.filter (fun m => m.id ≠ loadingPlaceholderId)
  match appendToExisting activeId chunkStr filtered with
  | some ms => ms
  | none => filtered ++ [{ role := Role.assistant, content := chunkStr,
                           id := activeId, animate := true }]

/-- The text appended for a parsed line (`data.response || ""` guarded by
truthiness). -/
def lineChunkText (d : Json) : String :=
  match getField d responseKey with
  | some v => if jsTruthy v then jsDisplay v else ""
  | none => ""

/-- Node highlights emitted for a parsed line (`data.node` guarded by
truthiness). -/
def lineHighlights (d : Json) : List String :=
  match getField d nodeKey with
  | some v => if jsTruthy v then [jsDisplay v] else []
  | none => []

/-- Processing of one complete line in the line-framed stream: blank lines
are skipped, unparsable lines are logged and discarded, a truthy `node`
field emits a highlight, and only a truthy `response` text touches the
message list. -/
def processStreamLine (activeId : String) (msgs : List Message)
    (line : List Char) : List Message × List String :=
  if (jsTrim line).isEmpty then (msgs, [])
  else
    match parseJson line with
    | none => (msgs, [])
    | some d =>
      let chunkStr := lineChunkText d
      let msgs2 := if chunkStr = "" then msgs else applyChunkToMessages activeId chunkStr msgs
      (msgs2, lineHighlights d)

/-- Fold `processStreamLine` over the complete lines of one chunk. -/
def processStreamLines (activeId : String) (msgs : List Message) :
    List (List Char) → List Message × List String
  | [] => (msgs, [])
  | l :: rest =>
    let p := processStreamLine activeId msgs l
    let q := processStreamLines activeId p.1 rest
    (q.1, p.2 ++ q.2)

/-- Split a buffer at every newline (`String.prototype.split`): the result
is never empty and its last element is the retained unfinished line. -/
def splitOnNl : List Char → List (List Char)
  | [] => [[]]
  | c :: rest =>
    if c = '\n' then [] :: splitOnNl rest
    else
      match splitOnNl rest with
      | [] => [[c]]
      | l :: ls => (c :: l) :: ls

theorem splitOnNl_ne_nil (s : List Char) : splitOnNl s ≠ [] := by
  cases s with
  | nil => simp [splitOnNl]
  | cons c rest =>
    simp only [splitOnNl]
    split
    · simp
    · split <;> simp

/-- One iteration of the streaming read loop of `sendMessageWithCallback`
for generation `g`: a read that happens after the generation was superseded
breaks out of the loop without touching anything; otherwise the chunk is
appended to the buffer, complete lines are processed, and highlights are
reported.  The final boolean tells whether the loop continues. -/
def streamReadStep (g : Nat) (activeId : String) (st : AgentApiState)
    (buffer chunk : List Char) :
    AgentApiState × List Char × List CbEvent × Bool :=
  if st.requestId ≠ g then (st, buffer, [], false)
  else
    let parts := splitOnNl (buffer ++ chunk)
    let lines := parts.dropLast
    let newBuffer := parts.getLast (splitOnNl_ne_nil (buffer ++ chunk))
    let p := processStreamLines activeId st.messages lines
    ({ st with messages := p.1 }, newBuffer, p.2.map CbEvent.onNodeHighlight, true)

/-- Completion of the streaming branch: state mutation and the success
callback are both gated on the generation still being current. -/
def streamSuccess (g : Nat) (st : AgentApiState) : AgentApiState × List CbEvent :=
  if st.requestId = g then
    ({ st with loading := false }, [CbEvent.onSuccess ("Workflow completed")])
  else (st, [])

/-- The catch handler of the streaming branch: the message-list and loading
mutations are gated on the generation, but `onError` is invoked
unconditionally. -/
def streamFailure (g : Nat) (errMsgId : String) (st : AgentApiState)
    (err : String) : AgentApiState × List CbEvent :=
  (if st.requestId = g then
    { st with
      messages := st.messages.filter (fun m => m.id ≠ loadingPlaceholderId) ++
        [{ role := Role.assistant, content := "Error: Failed to fetch stream.",
           id := errMsgId, animate := false }]
      loading := false }
   else st,
   [CbEvent.onError err])

/-- The prompt validation phase of the non-streaming `sendMessage`: a blank
prompt throws before the loading flag is set, the generation is bumped, or
any network call is prepared; otherwise the state is set up and the fresh
generation returned for the network phase. -/
def sendMessageValidate (st : AgentApiState) (prompt : String) :
    AgentApiState × Except String Nat :=
  if (jsTrim prompt.data).isEmpty then
    (st, Except.error ("Prompt cannot be empty"))
  else
    ({ st with loading := true, requestId := st.requestId + 1 },
     Except.ok (st.requestId + 1))

/-- A sample delivered domain event used by several witnesses. -/
def sampleDelivered : LogisticsStreamStep :=
  { order_id := "1", sender := "A", receiver := "B", message := "hi",
    timestamp := "t1", state := "DELIVERED" }

/-- A sample non-terminal domain event. -/
def sampleMoving : LogisticsStreamStep :=
  { order_id := "2", sender := "B", receiver := "C", message := "go",
    timestamp := "t2", state := "MOVING" }

/-- A store state in the `Complete` configuration. -/
def completedState : LogisticsStreamingState :=
  { initialState with
    events := [sampleDelivered]
    isComplete := true
    isStreaming := false
    currentOrderId := some "1" }

/-- C2: for every concatenated-JSON text and every partition of it into
chunks, threading the retained buffer through the pure extraction step
`(oldBuffer, chunk) to (emittedValues, newBuffer)` emits exactly the ordered
value sequence (and final buffer) obtained by feeding the whole text as a
single chunk. -/
theorem extractor_chunk_invariance (chunks : List (List Char)) :
    feedChunks [] chunks = extract [] chunks.flatten := by
  have h0 : scanEnd ([] : List Char) 0 0 = none := by simp [scanEnd]
  have := feedChunks_eq_extractStep chunks [] h0
  simpa [extract] using this

/-- C3: from the `Streaming` configuration (`isStreaming`, not complete), a
domain event is appended to the log and `currentOrderId` is updated; the
session moves to `Complete` (complete and not streaming) exactly when the
event state is the terminal marker, and stays `Streaming` otherwise. -/
theorem addEvent_streaming_transition (s : LogisticsStreamingState)
    (e : LogisticsStreamStep) (hs : s.isStreaming = true)
    (hc : s.isComplete = false) :
    (addEvent s e).events = s.events ++ [e] ∧
    (addEvent s e).currentOrderId = some e.order_id ∧
    (((addEvent s e).isComplete = true ∧ (addEvent s e).isStreaming = false) ↔
      e.state = "DELIVERED") ∧
    (e.state ≠ "DELIVERED" →
      (addEvent s e).isStreaming = true ∧ (addEvent s e).isComplete = false) := by
  by_cases hd : e.state = "DELIVERED" <;> simp [addEvent, hd, hs, hc]

/-- Closed instance of the `Streaming` transition behaviour of `addEvent`. -/
theorem addEvent_streaming_transition_witness :
    (addEvent streamingStart sampleDelivered).events =
      streamingStart.events ++ [sampleDelivered] ∧
    (addEvent streamingStart sampleDelivered).currentOrderId =
      some sampleDelivered.order_id ∧
    (((addEvent streamingStart sampleDelivered).isComplete = true ∧
      (addEvent streamingStart sampleDelivered).isStreaming = false) ↔
      sampleDelivered.state = "DELIVERED") ∧
    (sampleDelivered.state ≠ "DELIVERED" →
      (addEvent streamingStart sampleDelivered).isStreaming = true ∧
      (addEvent streamingStart sampleDelivered).isComplete = false) :=
  addEvent_streaming_transition streamingStart sampleDelivered (by decide) (by decide)

/-- C4 counterexample: from the `Complete` configuration, applying a domain
event is not a no-op — the event log grows. -/
theorem addEvent_after_complete_mutates :
    completedState.isComplete = true ∧ completedState.isStreaming = false ∧
    (addEvent completedState sampleMoving).events ≠ completedState.events := by
  refine ⟨rfl, rfl, ?_⟩
  decide

/-- C4 (amended): `addEvent` is not guarded by the session status: in every
state, including the terminal ones, it appends the event to the log and
updates `currentOrderId`, so the event log also grows after completion when
further frames arrive. -/
theorem addEvent_unguarded (s : LogisticsStreamingState) (e : LogisticsStreamStep) :
    (addEvent s e).events = s.events ++ [e] ∧
    (addEvent s e).currentOrderId = some e.order_id ∧
    (addEvent s e).finalResponse = s.finalResponse ∧
    (addEvent s e).error = s.error := by
  simp [addEvent]

/-- C9: `reset()` from either terminal configuration restores the initial
state: empty log and all of `finalResponse`, `error`, `currentOrderId`
cleared, with both streaming and completion flags off. -/
theorem reset_from_terminal (s : LogisticsStreamingState)
    (_h : s.isComplete = true ∨ s.error ≠ none) :
    reset s = initialState ∧
    (reset s).events = [] ∧
    (reset s).finalResponse = none ∧
    (reset s).error = none ∧
    (reset s).currentOrderId = none ∧
    (reset s).isStreaming = false ∧
    (reset s).isComplete = false := by
  simp [reset, initialState]

/-- Closed instance of the reset behaviour from a terminal state. -/
theorem reset_from_terminal_witness :
    reset completedState = initialState ∧
    (reset completedState).events = [] ∧
    (reset completedState).finalResponse = none ∧
    (reset completedState).error = none ∧
    (reset completedState).currentOrderId = none ∧
    (reset completedState).isStreaming = false ∧
    (reset completedState).isComplete = false :=
  reset_from_terminal completedState (Or.inl (by decide))

theorem jsTrim_all_ws {s : List Char} (h : ∀ c ∈ s, isWsChar c = true) :
    jsTrim s = [] := by
  have h1 : s.dropWhile isWsChar = [] := List.dropWhile_eq_nil_iff.mpr h
  simp [jsTrim, h1]

/-- C10: a prompt that is empty or whitespace-only makes `sendMessage` throw
`Prompt cannot be empty` during validation, before the loading flag, the
request generation, or any network call is touched: the returned state is
exactly the input state. -/
theorem sendMessage_blank_prompt_throws (st : AgentApiState) (prompt : String)
    (h : ∀ c ∈ prompt.data, isWsChar c = true) :
    sendMessageValidate st prompt = (st, Except.error ("Prompt cannot be empty")) := by
  have h1 : jsTrim prompt.data = [] := jsTrim_all_ws h
  simp [sendMessageValidate, h1]

/-- Closed instance of the blank-prompt rejection. -/
theorem sendMessage_blank_prompt_throws_witness :
    sendMessageValidate { requestId := 4, loading := false, messages := [] } ("  ") =
      ({ requestId := 4, loading := false, messages := [] },
       Except.error ("Prompt cannot be empty")) :=
  sendMessage_blank_prompt_throws
    { requestId := 4, loading := false, messages := [] } ("  ") (by decide)

/-- C7: with three total attempts, an operation failing twice then
succeeding triggers exactly two `onRetry` observations, with delays
`base * 2 ^ 0` and `base * 2 ^ 1` (non-decreasing), and the final result is
the success value; an operation failing on all three attempts has its last
failure propagated unchanged. -/
theorem withRetry_three_attempts (base : Nat) (e0 e1 : String) (v : Nat)
    (op opF : Nat → Except String Nat) (eF : Nat → String)
    (h0 : op 0 = Except.error e0) (h1 : op 1 = Except.error e1)
    (h2 : op 2 = Except.ok v) (hF : ∀ i, opF i = Except.error (eF i)) :
    withRetry op 3 base =
      (Except.ok v, [(1, e0, base * 2 ^ 0), (2, e1, base * 2 ^ 1)]) ∧
    base * 2 ^ 0 ≤ base * 2 ^ 1 ∧
    withRetry opF 3 base =
      (Except.error (eF 2), [(1, eF 0, base * 2 ^ 0), (2, eF 1, base * 2 ^ 1)]) := by
  refine ⟨?_, ?_, ?_⟩
  · simp [withRetry, withRetryGo, h0, h1, h2]
  · have h : (2 : Nat) ^ 0 ≤ 2 ^ 1 := by norm_num
    exact Nat.mul_le_mul_left base h
  · simp [withRetry, withRetryGo, hF]

/-- Closed instance of the retry contract at concrete operations. -/
theorem withRetry_three_attempts_witness :
    withRetry (fun i => if i = 0 then Except.error ("a")
                        else if i = 1 then Except.error ("b")
                        else Except.ok 7) 3 5 =
      (Except.ok 7, [(1, "a", 5 * 2 ^ 0), (2, "b", 5 * 2 ^ 1)]) ∧
    5 * 2 ^ 0 ≤ 5 * 2 ^ 1 ∧
    withRetry (fun i => (Except.error (toString i) : Except String Nat)) 3 5 =
      (Except.error (toString 2),
       [(1, toString 0, 5 * 2 ^ 0), (2, toString 1, 5 * 2 ^ 1)]) :=
  withRetry_three_attempts 5 ("a") ("b") 7
    (fun i => if i = 0 then Except.error ("a")
              else if i = 1 then Except.error ("b")
              else Except.ok 7)
    (fun i => Except.error (toString i)) (fun i => toString i)
    rfl rfl rfl (fun _ => rfl)

/-- The hook state used by the stale-generation examples: the current
generation is 5, so generation 3 is superseded. -/
def staleState : AgentApiState := { requestId := 5, loading := true, messages := [] }

/-- C1 counterexample: a failure belonging to the superseded generation 3
mutates no state, but the `onError` callback is still invoked — the catch
handler calls it outside the generation guard. -/
theorem stale_failure_invokes_onError :
    staleState.requestId ≠ 3 ∧
    streamFailure 3 ("m1") staleState ("network down") =
      (staleState, [CbEvent.onError ("network down")]) ∧
    (streamFailure 3 ("m1") staleState ("network down")).2 ≠ [] := by
  refine ⟨by decide, ?_, by decide⟩
  decide

/-- C1 (amended): in the line-framed pipeline, a chunk read under a
superseded generation is dropped whole — no message or buffer mutation, no
callback — and a superseded success mutates nothing and invokes no
callback; a superseded failure also mutates no state, although its
`onError` callback still fires (the counterexample above).  The
concatenated-object pipeline carries no generation tags at all. -/
theorem stale_generation_no_mutation (g : Nat) (activeId errId err : String)
    (st : AgentApiState) (buffer chunk : List Char) (h : st.requestId ≠ g) :
    streamReadStep g activeId st buffer chunk = (st, buffer, [], false) ∧
    streamSuccess g st = (st, []) ∧
    (streamFailure g errId st err).1 = st := by
  refine ⟨?_, ?_, ?_⟩ <;> simp [streamReadStep, streamSuccess, streamFailure, h]

/-- Closed instance of the stale-generation no-mutation behaviour. -/
theorem stale_generation_no_mutation_witness :
    streamReadStep 3 ("aid") staleState [] (("x").data) = (staleState, [], [], false) ∧
    streamSuccess 3 staleState = (staleState, []) ∧
    (streamFailure 3 ("m1") staleState ("boom")).1 = staleState :=
  stale_generation_no_mutation 3 ("aid") ("m1") ("boom") staleState [] (("x").data)
    (by decide)

theorem isWsChar_eq_isJsonWs (c : Char) : isWsChar c = isJsonWs c := by
  simp only [isWsChar, isJsonWs, Char.isWhitespace]
  by_cases h1 : c = ' ' <;> by_cases h2 : c = '\t' <;> by_cases h3 : c = '\n' <;>
    by_cases h4 : c = '\r' <;> simp [h1, h2, h3, h4]

theorem skipWs_of_all_ws {s : List Char} (h : ∀ c ∈ s, isJsonWs c = true) :
    skipWs s = [] := by
  induction s with
  | nil => rfl
  | cons c rest ih =>
    have hc : isJsonWs c = true := h c (by simp)
    simp only [skipWs, hc, if_pos]
    exact ih fun x hx => h x (by simp [hx])

theorem all_ws_of_jsTrim_nil {s : List Char} (h : jsTrim s = []) :
    ∀ c ∈ s, isWsChar c = true := by
  unfold jsTrim at h
  have h2 : (s.dropWhile isWsChar).reverse.dropWhile isWsChar = [] := by
    simpa using congrArg List.reverse h
  have h3 : ∀ c ∈ (s.dropWhile isWsChar).reverse, isWsChar c = true :=
    List.dropWhile_eq_nil_iff.mp h2
  have h4 : ∀ c ∈ s.dropWhile isWsChar, isWsChar c = true := by
    intro c hc
    exact h3 c (by simpa using hc)
  intro c hc
  have hsplit : s.takeWhile isWsChar ++ s.dropWhile isWsChar = s :=
    List.takeWhile_append_dropWhile isWsChar s
  rw [← hsplit] at hc
  rcases List.mem_append.mp hc with htw | hdw
  · exact List.mem_takeWhile_imp htw
  · exact h4 c hdw

theorem parseJson_of_blank {line : List Char} (h : (jsTrim line).isEmpty = true) :
    parseJson line = none := by
  have hnil : jsTrim line = [] := by
    cases hl : jsTrim line with
    | nil => rfl
    | cons a as => rw [hl] at h; simp [List.isEmpty] at h
  have hws : ∀ c ∈ line, isWsChar c = true := all_ws_of_jsTrim_nil hnil
  have hws2 : ∀ c ∈ line, isJsonWs c = true := fun c hc =>
    (isWsChar_eq_isJsonWs c) ▸ hws c hc
  have hs : skipWs line = [] := skipWs_of_all_ws hws2
  unfold parseJson
  have hv : parseValue (line.length + 1) line = none := by
    simp only [parseValue, hs]
  simp [hv]

/-- C8: in the newline-delimited framing, a line that fails to parse as
JSON is discarded while the subsequent lines are still processed, and a
parsed line with no `response` field is a status-only heartbeat — the
message list is untouched — while a non-empty string `node` field still
emits a node-highlight. -/
theorem line_framed_noise_and_heartbeat (activeId : String) (msgs : List Message)
    (line line2 : List Char) (rest : List (List Char)) (d : Json) (nid : String)
    (h1 : parseJson line = none)
    (h2 : parseJson line2 = some d)
    (h3 : getField d responseKey = none)
    (h4 : getField d nodeKey = some (Json.str nid))
    (h5 : nid ≠ "") :
    processStreamLine activeId msgs line = (msgs, []) ∧
    processStreamLines activeId msgs (line :: rest) =
      processStreamLines activeId msgs rest ∧
    processStreamLine activeId msgs line2 = (msgs, [nid]) := by
  have p1 : processStreamLine activeId msgs line = (msgs, []) := by
    unfold processStreamLine
    by_cases hb : (jsTrim line).isEmpty <;> simp [hb, h1]
  refine ⟨p1, ?_, ?_⟩
  · simp [processStreamLines, p1]
  · have hb2 : (jsTrim line2).isEmpty = false := by
      cases hb : (jsTrim line2).isEmpty with
      | false => rfl
      | true => rw [parseJson_of_blank hb] at h2; exact Option.noConfusion h2
    have hnid : nid.data ≠ [] := by
      intro hd
      apply h5
      cases nid with
      | mk l => simp at hd; subst hd; rfl
    have hnids : nid.data.isEmpty = false := by
      cases hh : nid.data with
      | nil => exact absurd hh hnid
      | cons a as => rfl
    unfold processStreamLine
    simp [hb2, h2, lineChunkText, h3, lineHighlights, h4, jsTruthy, jsDisplay, hnids]

/-- A line of non-JSON noise. -/
def noiseLine : List Char := ("garbage").data

/-- A heartbeat line carrying a node id and a status but no response. -/
def heartbeatLine : List Char :=
  lbrace :: dquote :: ("node").data ++ dquote :: ':' :: ' ' :: dquote :: ("n1").data ++
    dquote :: ',' :: ' ' :: dquote :: ("status").data ++ dquote :: ':' :: ' ' ::
    dquote :: ("working").data ++ [dquote, rbrace]

/-- The parsed form of `heartbeatLine`. -/
def heartbeatJson : Json :=
  Json.obj [("node", Json.str ("n1")), ("status", Json.str ("working"))]

/-- Closed instance of the noise-tolerance and heartbeat behaviour. -/
theorem line_framed_noise_and_heartbeat_witness :
    processStreamLine ("aid") [] noiseLine = ([], []) ∧
    processStreamLines ("aid") [] (noiseLine :: [heartbeatLine]) =
      processStreamLines ("aid") [] [heartbeatLine] ∧
    processStreamLine ("aid") [] heartbeatLine = ([], [("n1")]) :=
  line_framed_noise_and_heartbeat ("aid") [] noiseLine heartbeatLine [heartbeatLine]
    heartbeatJson ("n1") rfl rfl rfl rfl (by decide)

/-- C6 (amended): a parsed frame of the concatenated-object framing whose
string `response` is non-empty and does not begin with a brace-quote
sentinel sets `finalResponse`, marks the session `Complete`, and terminates
processing: the remaining frames of the chunk and all later chunks are
never processed, and no further events are accepted. -/
theorem final_response_terminates (s : LogisticsStreamingState)
    (frame : List Char) (post : List (List Char)) (j : Json) (r : String)
    (buffer chunk : List Char) (rest : List (List Char))
    (h1 : parseJson frame = some j)
    (h2 : getField j responseKey = some (Json.str r))
    (h3 : r ≠ "")
    (h4 : startsWithPy r = false)
    (h5 : (extractStep (buffer ++ chunk)).1 = frame :: post) :
    handleFrame frame = FrameAction.final r ∧
    runFrames s (frame :: post) = (setFinalResponse s r, true) ∧
    runStream s buffer (chunk :: rest) = setFinalResponse s r ∧
    (setFinalResponse s r).finalResponse = some r ∧
    (setFinalResponse s r).isComplete = true ∧
    (setFinalResponse s r).isStreaming = false ∧
    (setFinalResponse s r).events = s.events := by
  have hrd : r.data ≠ [] := by
    intro hd
    apply h3
    cases r with
    | mk l => simp at hd; subst hd; rfl
  have hrds : r.data.isEmpty = false := by
    cases hh : r.data with
    | nil => exact absurd hh hrd
    | cons a as => rfl
  have hf : handleFrame frame = FrameAction.final r := by
    unfold handleFrame
    simp [h1, h2, hrds, h4]
  have hrun : runFrames s (frame :: post) = (setFinalResponse s r, true) := by
    simp [runFrames, hf]
  refine ⟨hf, hrun, ?_, by simp [setFinalResponse], by simp [setFinalResponse],
    by simp [setFinalResponse], by simp [setFinalResponse]⟩
  unfold runStream
  simp [h5, hrun]

/-- The final-response frame used by the witness. -/
def finalFrame : List Char :=
  lbrace :: dquote :: ("response").data ++ dquote :: ':' :: ' ' :: dquote ::
    ("done").data ++ [dquote, rbrace]

/-- The parsed form of `finalFrame`. -/
def finalFrameJson : Json := Json.obj [("response", Json.str ("done"))]

/-- Closed instance of the final-response termination behaviour; the later
chunk `noiseLine` is never processed. -/
theorem final_response_terminates_witness :
    handleFrame finalFrame = FrameAction.final ("done") ∧
    runFrames streamingStart (finalFrame :: []) =
      (setFinalResponse streamingStart ("done"), true) ∧
    runStream streamingStart [] (finalFrame :: [noiseLine]) =
      setFinalResponse streamingStart ("done") ∧
    (setFinalResponse streamingStart ("done")).finalResponse = some ("done") ∧
    (setFinalResponse streamingStart ("done")).isComplete = true ∧
    (setFinalResponse streamingStart ("done")).isStreaming = false ∧
    (setFinalResponse streamingStart ("done")).events = streamingStart.events :=
  final_response_terminates streamingStart finalFrame [] finalFrameJson ("done")
    [] finalFrame [noiseLine] rfl rfl (by decide) (by decide)
    (by
      rw [List.nil_append,
        extractStep_some (show scanEnd finalFrame 0 0 = some 19 by decide),
        extractStep_none (show scanEnd (finalFrame.drop (19 + 1)) 0 0 = none by decide)]
      decide)

/-- A frame whose `response` field is present, a string, and empty. -/
def emptyResponseFrame : List Char :=
  lbrace :: dquote :: ("response").data ++ dquote :: ':' :: ' ' :: dquote ::
    [dquote, rbrace]

/-- C6 counterexample: a parsed frame carrying the string response `""` —
which does not begin with a brace-quote sentinel — is skipped by the
truthiness guard instead of becoming the final response: the state is
unchanged, `finalResponse` stays unset, and the stream is not terminated. -/
theorem empty_response_not_final :
    parseJson emptyResponseFrame = some (Json.obj [("response", Json.str (""))]) ∧
    startsWithPy ("") = false ∧
    handleFrame emptyResponseFrame = FrameAction.nop ∧
    runFrames streamingStart [emptyResponseFrame] = (streamingStart, false) ∧
    streamingStart.finalResponse = none ∧
    streamingStart.isComplete = false := by
  exact ⟨rfl, rfl, rfl, rfl, rfl, rfl⟩
/-- Characters allowed in a well-formed literal-style field value: no
quotes, no backslash, none of the capitalised Python literal initials, and
no control characters. -/
def safeChar (c : Char) : Bool :=
  !(c = squote || c = dquote || c = bslash || c = 'T' || c = 'F' || c = 'N') &&
    decide (31 < c.toNat)

/-- All characters of the string are safe. -/
def safeStr (s : String) : Bool := s.data.all safeChar

/-- The trimmed string is non-empty. -/
def nonBlankStr (s : String) : Bool := !(jsTrim s.data).isEmpty

/-- All six fields consist of safe characters. -/
def stepFieldsSafe (e : LogisticsStreamStep) : Bool :=
  safeStr e.order_id && safeStr e.sender && safeStr e.receiver &&
    safeStr e.message && safeStr e.timestamp && safeStr e.state

/-- All six fields are non-blank. -/
def stepNonBlank (e : LogisticsStreamStep) : Bool :=
  nonBlankStr e.order_id && nonBlankStr e.sender && nonBlankStr e.receiver &&
    nonBlankStr e.message && nonBlankStr e.timestamp && nonBlankStr e.state

/-- A well-formed literal-style domain event: safe and non-blank fields. -/
def stepWellFormed (e : LogisticsStreamStep) : Bool :=
  stepFieldsSafe e && stepNonBlank e

/-- One single-quoted key and value member of a Python-literal dictionary,
written with an explicit continuation. -/
def pyMember (k v : String) (tail : List Char) : List Char :=
  squote :: (k.data ++ (squote :: ':' :: ' ' :: (squote :: (v.data ++ (squote :: tail)))))

/-- One double-quoted key and value member of a JSON object, written with an
explicit continuation. -/
def jsonMember (k v : String) (tail : List Char) : List Char :=
  dquote :: (k.data ++ (dquote :: ':' :: ' ' :: (dquote :: (v.data ++ (dquote :: tail)))))

/-- The canonical Python-literal rendering of a domain event, the shape
produced by the upstream agent. -/
def renderPy (e : LogisticsStreamStep) : List Char :=
  lbrace :: pyMember ("order_id") e.order_id (',' :: ' ' ::
    pyMember ("sender") e.sender (',' :: ' ' ::
      pyMember ("receiver") e.receiver (',' :: ' ' ::
        pyMember ("message") e.message (',' :: ' ' ::
          pyMember ("timestamp") e.timestamp (',' :: ' ' ::
            pyMember ("state") e.state [rbrace])))))

/-- The strict-JSON rendering of a domain event. -/
def renderJson (e : LogisticsStreamStep) : List Char :=
  lbrace :: jsonMember ("order_id") e.order_id (',' :: ' ' ::
    jsonMember ("sender") e.sender (',' :: ' ' ::
      jsonMember ("receiver") e.receiver (',' :: ' ' ::
        jsonMember ("message") e.message (',' :: ' ' ::
          jsonMember ("timestamp") e.timestamp (',' :: ' ' ::
            jsonMember ("state") e.state [rbrace])))))

/-- The parsed JSON object corresponding to a domain event. -/
def jsonOf (e : LogisticsStreamStep) : Json :=
  Json.obj [("order_id", Json.str e.order_id), ("sender", Json.str e.sender),
    ("receiver", Json.str e.receiver), ("message", Json.str e.message),
    ("timestamp", Json.str e.timestamp), ("state", Json.str e.state)]

/-- The single-quote to double-quote substitution as a character map. -/
def sq2dq (c : Char) : Char := if c = squote then dquote else c

theorem replaceAllF_sq (fuel : Nat) :
    ∀ s : List Char, s.length ≤ fuel →
      replaceAllF [squote] [dquote] fuel s = s.map sq2dq := by
  induction fuel with
  | zero =>
    intro s hs
    cases s with
    | nil => rfl
    | cons c rest => simp at hs
  | succ f ih =>
    intro s hs
    cases s with
    | nil => rfl
    | cons c rest =>
      have hr : rest.length ≤ f := by simp at hs; omega
      by_cases hc : c = squote
      · subst hc
        simp [replaceAllF, leadsWith, ih rest hr, sq2dq]
      · simp [replaceAllF, leadsWith, Ne.symm hc, ih rest hr, sq2dq, hc]

theorem replaceAll_sq (s : List Char) :
    replaceAll [squote] [dquote] s = s.map sq2dq :=
  replaceAllF_sq s.length s le_rfl

theorem replaceAllF_id (p : Char) (ps repl : List Char) (fuel : Nat) :
    ∀ s : List Char, (∀ c ∈ s, c ≠ p) → replaceAllF (p :: ps) repl fuel s = s := by
  induction fuel with
  | zero =>
    intro s _
    cases s <;> rfl
  | succ f ih =>
    intro s hs
    cases s with
    | nil => rfl
    | cons c rest =>
      have hc : c ≠ p := hs c (by simp)
      simp [replaceAllF, leadsWith, Ne.symm hc,
        ih rest (fun x hx => hs x (by simp [hx]))]

theorem replaceAll_id (p : Char) (ps repl : List Char) (s : List Char)
    (h : ∀ c ∈ s, c ≠ p) : replaceAll (p :: ps) repl s = s :=
  replaceAllF_id p ps repl s.length s h

theorem map_sq2dq_noop {l : List Char} (h : ∀ c ∈ l, c ≠ squote) :
    l.map sq2dq = l := by
  induction l with
  | nil => rfl
  | cons c rest ih =>
    simp [sq2dq, h c (by simp), ih (fun x hx => h x (by simp [hx]))]

theorem safeStr_props {s : String} (h : safeStr s = true) :
    ∀ c ∈ s.data, c ≠ squote ∧ c ≠ dquote ∧ c ≠ bslash ∧
      c ≠ 'T' ∧ c ≠ 'F' ∧ c ≠ 'N' := by
  intro c hc
  have := List.all_eq_true.mp h c hc
  simp only [safeChar, Bool.and_eq_true, Bool.not_eq_true', Bool.or_eq_false_iff,
    decide_eq_false_iff_not] at this
  obtain ⟨⟨⟨⟨⟨⟨h1, h2⟩, h3⟩, h4⟩, h5⟩, h6⟩, _⟩ := this
  exact ⟨h1, h2, h3, h4, h5, h6⟩

theorem map_renderPy (e : LogisticsStreamStep) (hsafe : stepFieldsSafe e = true) :
    (renderPy e).map sq2dq = renderJson e := by
  simp only [stepFieldsSafe, Bool.and_eq_true] at hsafe
  obtain ⟨⟨⟨⟨⟨ho, hs⟩, hr⟩, hm⟩, ht⟩, hst⟩ := hsafe
  have mo := map_sq2dq_noop (fun c hc => (safeStr_props ho c hc).1)
  have ms := map_sq2dq_noop (fun c hc => (safeStr_props hs c hc).1)
  have mr := map_sq2dq_noop (fun c hc => (safeStr_props hr c hc).1)
  have mm := map_sq2dq_noop (fun c hc => (safeStr_props hm c hc).1)
  have mt := map_sq2dq_noop (fun c hc => (safeStr_props ht c hc).1)
  have mst := map_sq2dq_noop (fun c hc => (safeStr_props hst c hc).1)
  simp only [renderPy, renderJson, pyMember, jsonMember, List.map_cons,
    List.map_append, mo, ms, mr, mm, mt, mst]
  simp [sq2dq, squote, lbrace, rbrace, dquote]

theorem renderJson_noTFN (e : LogisticsStreamStep) (hsafe : stepFieldsSafe e = true) :
    ∀ c ∈ renderJson e, c ≠ 'T' ∧ c ≠ 'F' ∧ c ≠ 'N' := by
  simp only [stepFieldsSafe, Bool.and_eq_true] at hsafe
  obtain ⟨⟨⟨⟨⟨ho, hs⟩, hr⟩, hm⟩, ht⟩, hst⟩ := hsafe
  have fo : ∀ x ∈ e.order_id.data, x ≠ 'T' ∧ x ≠ 'F' ∧ x ≠ 'N' := fun x hx =>
    ⟨(safeStr_props ho x hx).2.2.2.1, (safeStr_props ho x hx).2.2.2.2.1,
     (safeStr_props ho x hx).2.2.2.2.2⟩
  have fs : ∀ x ∈ e.sender.data, x ≠ 'T' ∧ x ≠ 'F' ∧ x ≠ 'N' := fun x hx =>
    ⟨(safeStr_props hs x hx).2.2.2.1, (safeStr_props hs x hx).2.2.2.2.1,
     (safeStr_props hs x hx).2.2.2.2.2⟩
  have fr : ∀ x ∈ e.receiver.data, x ≠ 'T' ∧ x ≠ 'F' ∧ x ≠ 'N' := fun x hx =>
    ⟨(safeStr_props hr x hx).2.2.2.1, (safeStr_props hr x hx).2.2.2.2.1,
     (safeStr_props hr x hx).2.2.2.2.2⟩
  have fm : ∀ x ∈ e.message.data, x ≠ 'T' ∧ x ≠ 'F' ∧ x ≠ 'N' := fun x hx =>
    ⟨(safeStr_props hm x hx).2.2.2.1, (safeStr_props hm x hx).2.2.2.2.1,
     (safeStr_props hm x hx).2.2.2.2.2⟩
  have ft : ∀ x ∈ e.timestamp.data, x ≠ 'T' ∧ x ≠ 'F' ∧ x ≠ 'N' := fun x hx =>
    ⟨(safeStr_props ht x hx).2.2.2.1, (safeStr_props ht x hx).2.2.2.2.1,
     (safeStr_props ht x hx).2.2.2.2.2⟩
  have fst2 : ∀ x ∈ e.state.data, x ≠ 'T' ∧ x ≠ 'F' ∧ x ≠ 'N' := fun x hx =>
    ⟨(safeStr_props hst x hx).2.2.2.1, (safeStr_props hst x hx).2.2.2.2.1,
     (safeStr_props hst x hx).2.2.2.2.2⟩
  simp only [renderJson, jsonMember, List.forall_mem_cons, List.forall_mem_append]
  repeat' apply And.intro
  all_goals first
    | exact fo | exact fs | exact fr | exact fm | exact ft | exact fst2
    | decide

theorem pyToJson_renderPy (e : LogisticsStreamStep) (hsafe : stepFieldsSafe e = true) :
    pyToJson (renderPy e) = renderJson e := by
  have hmap : replaceAll [squote] [dquote] (renderPy e) = renderJson e := by
    rw [replaceAll_sq]; exact map_renderPy e hsafe
  have hTFN := renderJson_noTFN e hsafe
  unfold pyToJson
  rw [hmap]
  rw [show pyTrueTok = 'T' :: ("rue").data by decide]
  rw [replaceAll_id _ _ _ _ (fun c hc => (hTFN c hc).1)]
  rw [show pyFalseTok = 'F' :: ("alse").data by decide]
  rw [replaceAll_id _ _ _ _ (fun c hc => (hTFN c hc).2.1)]
  rw [show pyNoneTok = 'N' :: ("one").data by decide]
  rw [replaceAll_id _ _ _ _ (fun c hc => (hTFN c hc).2.2)]

theorem skipWs_not_ws {c : Char} {r : List Char} (h : isJsonWs c = false) :
    skipWs (c :: r) = c :: r := by
  simp [skipWs, h]

theorem skipWs_ws {c : Char} {r : List Char} (h : isJsonWs c = true) :
    skipWs (c :: r) = skipWs r := by
  simp [skipWs, h]

theorem parseStringBody_append {v rest : List Char}
    (h : ∀ c ∈ v, c ≠ dquote ∧ c ≠ bslash) :
    parseStringBody (v ++ (dquote :: rest)) = some (v, rest) := by
  induction v with
  | nil =>
    rw [List.nil_append, parseStringBody.eq_def]
    simp
  | cons c cs ih =>
    have hc := h c (by simp)
    have ih2 := ih (fun x hx => h x (by simp [hx]))
    rw [List.cons_append, parseStringBody.eq_def]
    simp [hc.1, hc.2, ih2]

theorem parseMembers_step (f : Nat) (k v : String) (tail : List Char)
    (acc : List (String × Json))
    (hk : ∀ c ∈ k.data, c ≠ dquote ∧ c ≠ bslash)
    (hv : ∀ c ∈ v.data, c ≠ dquote ∧ c ≠ bslash) :
    parseMembers (f + 2)
        (dquote :: (k.data ++ (dquote :: ':' :: ' ' :: (dquote :: (v.data ++ (dquote :: tail)))))) acc =
      (match skipWs tail with
       | [] => none
       | c3 :: r3 =>
         if c3 = ',' then parseMembers (f + 1) (skipWs r3) (acc ++ [(k, Json.str v)])
         else if c3 = rbrace then some (acc ++ [(k, Json.str v)], r3)
         else none) := by
  rw [parseMembers.eq_def]
  simp only [if_pos rfl, parseStringBody_append hk]
  rw [skipWs_not_ws (by decide)]
  simp only [if_true, if_pos rfl]
  rw [skipWs_ws (by decide), skipWs_not_ws (by decide)]
  rw [parseValue.eq_def, show f + 1 = Nat.succ f from rfl]
  simp only [skipWs_not_ws (show isJsonWs dquote = false by decide),
    parseStringBody_append hv, if_pos rfl]
  have hmk : String.mk k.data = k := rfl
  have hmv : String.mk v.data = v := rfl
  simp only [hmk, hmv, if_true]

theorem parseValue_renderJson (f : Nat) (e : LogisticsStreamStep)
    (hsafe : stepFieldsSafe e = true) :
    parseValue (f + 8) (renderJson e) = some (jsonOf e, []) := by
  have hsafe2 := hsafe
  simp only [stepFieldsSafe, Bool.and_eq_true] at hsafe2
  obtain ⟨⟨⟨⟨⟨ho, hs⟩, hr⟩, hm⟩, ht⟩, hst⟩ := hsafe2
  have qo : ∀ c ∈ e.order_id.data, c ≠ dquote ∧ c ≠ bslash := fun c hc =>
    ⟨(safeStr_props ho c hc).2.1, (safeStr_props ho c hc).2.2.1⟩
  have qs : ∀ c ∈ e.sender.data, c ≠ dquote ∧ c ≠ bslash := fun c hc =>
    ⟨(safeStr_props hs c hc).2.1, (safeStr_props hs c hc).2.2.1⟩
  have qr : ∀ c ∈ e.receiver.data, c ≠ dquote ∧ c ≠ bslash := fun c hc =>
    ⟨(safeStr_props hr c hc).2.1, (safeStr_props hr c hc).2.2.1⟩
  have qm : ∀ c ∈ e.message.data, c ≠ dquote ∧ c ≠ bslash := fun c hc =>
    ⟨(safeStr_props hm c hc).2.1, (safeStr_props hm c hc).2.2.1⟩
  have qt : ∀ c ∈ e.timestamp.data, c ≠ dquote ∧ c ≠ bslash := fun c hc =>
    ⟨(safeStr_props ht c hc).2.1, (safeStr_props ht c hc).2.2.1⟩
  have qst : ∀ c ∈ e.state.data, c ≠ dquote ∧ c ≠ bslash := fun c hc =>
    ⟨(safeStr_props hst c hc).2.1, (safeStr_props hst c hc).2.2.1⟩
  have ko : ∀ c ∈ ("order_id").data, c ≠ dquote ∧ c ≠ bslash := by decide
  have ks : ∀ c ∈ ("sender").data, c ≠ dquote ∧ c ≠ bslash := by decide
  have kr : ∀ c ∈ ("receiver").data, c ≠ dquote ∧ c ≠ bslash := by decide
  have km : ∀ c ∈ ("message").data, c ≠ dquote ∧ c ≠ bslash := by decide
  have kt : ∀ c ∈ ("timestamp").data, c ≠ dquote ∧ c ≠ bslash := by decide
  have kst : ∀ c ∈ ("state").data, c ≠ dquote ∧ c ≠ bslash := by decide
  simp only [renderJson, jsonMember]
  rw [show f + 8 = Nat.succ (f + 7) from rfl, parseValue.eq_def]
  simp only [skipWs_not_ws (show isJsonWs lbrace = false by decide),
    skipWs_not_ws (show isJsonWs dquote = false by decide),
    skipWs_not_ws (show isJsonWs ',' = false by decide),
    skipWs_not_ws (show isJsonWs rbrace = false by decide),
    skipWs_ws (show isJsonWs ' ' = true by decide),
    if_pos rfl, if_true,
    (show ¬(lbrace = dquote) by decide), (show ¬(dquote = rbrace) by decide),
    (show ¬(rbrace = ',') by decide),
    show f + 7 = (f + 5) + 2 from rfl,
    parseMembers_step (f + 5) _ _ _ _ ko qo,
    show (f + 5) + 1 = (f + 4) + 2 from rfl,
    parseMembers_step (f + 4) _ _ _ _ ks qs,
    show (f + 4) + 1 = (f + 3) + 2 from rfl,
    parseMembers_step (f + 3) _ _ _ _ kr qr,
    show (f + 3) + 1 = (f + 2) + 2 from rfl,
    parseMembers_step (f + 2) _ _ _ _ km qm,
    show (f + 2) + 1 = (f + 1) + 2 from rfl,
    parseMembers_step (f + 1) _ _ _ _ kt qt,
    show (f + 1) + 1 = f + 2 from rfl,
    parseMembers_step f _ _ _ _ kst qst]
  simp [jsonOf]

theorem parseJson_renderJson (e : LogisticsStreamStep)
    (hsafe : stepFieldsSafe e = true) :
    parseJson (renderJson e) = some (jsonOf e) := by
  have hlen : 7 ≤ (renderJson e).length := by
    simp [renderJson, jsonMember]
  obtain ⟨f, hf⟩ : ∃ f, (renderJson e).length + 1 = f + 8 :=
    ⟨(renderJson e).length - 7, by omega⟩
  unfold parseJson
  rw [hf, parseValue_renderJson f e hsafe]
  simp [skipWs]

theorem isValid_jsonOf (e : LogisticsStreamStep) (hnb : stepNonBlank e = true) :
    isValidLogisticsStreamStep (jsonOf e) = true := by
  have hrfl : isValidLogisticsStreamStep (jsonOf e) =
      (nonBlankStr e.order_id && (nonBlankStr e.sender && (nonBlankStr e.receiver &&
        (nonBlankStr e.message && (nonBlankStr e.timestamp &&
          (nonBlankStr e.state && true)))))) := rfl
  simp only [stepNonBlank, Bool.and_eq_true] at hnb
  obtain ⟨⟨⟨⟨⟨no, ns⟩, nr⟩, nm⟩, nt⟩, nst⟩ := hnb
  rw [hrfl]
  simp [no, ns, nr, nm, nt, nst]

theorem mkStep_jsonOf (e : LogisticsStreamStep) : mkStep (jsonOf e) = e := by
  cases e with
  | mk o s r m t st => rfl

theorem parseDictResponse_renderPy (e : LogisticsStreamStep)
    (hwf : stepWellFormed e = true) :
    parseDictResponse (String.mk (renderPy e)) = some e := by
  simp only [stepWellFormed, Bool.and_eq_true] at hwf
  have hsafe := hwf.1
  have hnb := hwf.2
  unfold parseDictResponse
  have hdata : (String.mk (renderPy e)).data = renderPy e := rfl
  rw [hdata, pyToJson_renderPy e hsafe, parseJson_renderJson e hsafe]
  simp [isValid_jsonOf e hnb, mkStep_jsonOf]

theorem startsWithPy_ne_empty {r : String} (h : startsWithPy r = true) :
    r.data.isEmpty = false := by
  cases hd : r.data with
  | nil =>
    unfold startsWithPy at h
    rw [hd] at h
    simp [leadsWith] at h
  | cons a as => rfl

/-- C5: the quasi-JSON normalizer round-trips every well-formed
literal-style domain event (safe, non-blank fields rendered in the
canonical single-quoted shape) into the equivalent structured event, which
is accepted; a candidate whose quote-replaced text fails the strict parse,
or whose parse is missing a required non-blank string field, is rejected
(`none`); and a rejected sentinel-shaped candidate never raises a stream
error — the frame is dropped and the remaining frames are processed
against an unchanged state. -/
theorem normalizer_contract :
    (∀ e : LogisticsStreamStep, stepWellFormed e = true →
       parseDictResponse (String.mk (renderPy e)) = some e) ∧
    (∀ r : String, parseJson (pyToJson r.data) = none →
       parseDictResponse r = none) ∧
    (∀ (r : String) (j : Json) (fd : String),
       parseJson (pyToJson r.data) = some j → fd ∈ requiredStringFields →
       fieldOkay j fd = false → parseDictResponse r = none) ∧
    (∀ (s : LogisticsStreamingState) (frame : List Char)
       (rest : List (List Char)) (j : Json) (r : String),
       parseJson frame = some j → getField j responseKey = some (Json.str r) →
       startsWithPy r = true → parseDictResponse r = none →
       runFrames s (frame :: rest) = runFrames s rest) := by
  refine ⟨parseDictResponse_renderPy, ?_, ?_, ?_⟩
  · intro r h
    unfold parseDictResponse
    rw [h]
  · intro r j fd hj hmem hbad
    unfold parseDictResponse
    rw [hj]
    have hval : isValidLogisticsStreamStep j = false := by
      cases hv : isValidLogisticsStreamStep j with
      | false => rfl
      | true =>
        exfalso
        simp only [isValidLogisticsStreamStep, Bool.and_eq_true,
          List.all_eq_true] at hv
        rw [hv.2 fd hmem] at hbad
        exact Bool.noConfusion hbad
    simp [hval]
  · intro s frame rest j r h1 h2 h3 h4
    have hne := startsWithPy_ne_empty h3
    have hf : handleFrame frame = FrameAction.nop := by
      unfold handleFrame
      rw [h1]
      simp [h2, hne, h3, h4]
    simp [runFrames, hf]

/-- The rejected response text of the normalizer witness: an unterminated
literal-style fragment. -/
def badDictText : String := String.mk [lbrace, squote, 'x']

/-- A literal-style candidate missing every required field. -/
def poorDictText : String :=
  String.mk (lbrace :: squote :: 'a' :: squote :: ':' :: ' ' :: squote :: 'b' ::
    squote :: [rbrace])

/-- The parse of the quote-normalised `poorDictText`. -/
def poorDictJson : Json := Json.obj [("a", Json.str ("b"))]

/-- A frame whose sentinel-shaped response is rejected by the normalizer. -/
def badDictFrame : List Char :=
  lbrace :: dquote :: ("response").data ++ dquote :: ':' :: ' ' :: dquote ::
    lbrace :: squote :: 'x' :: [dquote, rbrace]

/-- The parse of `badDictFrame`. -/
def badDictFrameJson : Json := Json.obj [("response", Json.str badDictText)]

/-- Closed instance of the normalizer contract. -/
theorem normalizer_contract_witness :
    parseDictResponse (String.mk (renderPy sampleDelivered)) = some sampleDelivered ∧
    parseDictResponse badDictText = none ∧
    parseDictResponse poorDictText = none ∧
    runFrames streamingStart (badDictFrame :: [emptyResponseFrame]) =
      runFrames streamingStart [emptyResponseFrame] :=
  ⟨normalizer_contract.1 sampleDelivered (by decide),
   normalizer_contract.2.1 badDictText rfl,
   normalizer_contract.2.2.1 poorDictText poorDictJson ("order_id") rfl
     (by decide) rfl,
   normalizer_contract.2.2.2 streamingStart badDictFrame [emptyResponseFrame]
     badDictFrameJson badDictText rfl rfl rfl rfl⟩
